import Mathlib

/-!
Verification of the RSAA monthly-papers digest script (`ads-papers-rsaa.py`).

The script is shallowly embedded: Python strings become `List Char`, the
fallible parts become `Option`, the module-level pipeline becomes explicit
state passing.  Every definition is translated from the Python source; the
few definitions that instead formalise the specification's words (for
refinement-style comparisons) say so in their doc comment.
-/

set_option maxHeartbeats 1000000
set_option maxRecDepth 100000
set_option synthInstance.maxSize 1000

namespace RSAA

/-- Python strings are modelled as lists of characters. -/
abbrev Str : Type := List Char

/-- Worker for `pyReplace`, structurally recursive on a fuel argument; the
fuel is always instantiated with the length of the string, which bounds the
number of steps (each step consumes at least one character). -/
def pyReplaceGo (pat rep : Str) : Nat → Str → Str
  | _, [] => []
  | 0, s => s
  | fuel + 1, c :: rest =>
    if !pat.isEmpty && pat.isPrefixOf (c :: rest) then
      rep ++ pyReplaceGo pat rep fuel (List.drop (pat.length - 1) rest)
    else
      c :: pyReplaceGo pat rep fuel rest

/-- Python `s.replace(pat, rep)` for a non-empty `pat`: replace all non-overlapping
occurrences, scanning left to right.  (Python's empty-pattern special case is
never used by the script; an empty `pat` is treated as matching nowhere.) -/
def pyReplace (pat rep : Str) (s : Str) : Str :=
  pyReplaceGo pat rep s.length s

/-- Python `s.split(sep)` for a single-character separator, with Python semantics:
`"".split(";") == [""]`, and separators delimit (possibly empty) fields. -/
def pySplit (sep : Char) : Str → List Str
  | [] => [[]]
  | c :: rest =>
    if c = sep then [] :: pySplit sep rest
    else
      match pySplit sep rest with
      | [] => [[c]]
      | t :: ts => (c :: t) :: ts

/-- The whitespace characters stripped by Python's `str.strip()` (ASCII part). -/
def isPySpace (c : Char) : Bool :=
  c = ' ' || c = '\t' || c = '\n' || c = '\r' || c = '\x0b' || c = '\x0c'

/-- Python `s.strip()`: drop leading and trailing whitespace. -/
def pyStrip (s : Str) : Str :=
  ((s.dropWhile isPySpace).reverse.dropWhile isPySpace).reverse

/-- Python `s.lower()` (ASCII model: the affiliation keywords are ASCII). -/
def pyLower (s : Str) : Str :=
  s.map Char.toLower

/-- Python's substring test `pat in s`. -/
def isSubstr (pat : Str) (s : Str) : Bool :=
  match s with
  | [] => pat.isEmpty
  | _ :: rest => pat.isPrefixOf s || isSubstr pat rest

/-- The `"&amp;"` HTML entity replaced by `strip_affiliations`. -/
def ampEntity : Str := "&amp;".toList

/-- Its replacement, `"&"`. -/
def ampChar : Str := "&".toList

/-- The department keyword `"astronomy"` looked for by `matching_author`. -/
def deptKeyword : Str := "astronomy".toList

/-- The institution postal code `"2611"` looked for by `matching_author`. -/
def postcodeToken : Str := "2611".toList

/-- Source function `strip_affiliations(aff)`: decode `&amp;`, split on `;`,
then per token remove commas and colons, lowercase, and strip whitespace. -/
def strip_affiliations (aff : Str) : List Str :=
  let aff2 := pyReplace ampEntity ampChar aff
  (pySplit ';' aff2).map
    (fun ea => pyStrip (pyLower (pyReplace [':'] [] (pyReplace [','] [] ea))))

/-- The per-token test of `matching_author`'s loop:
`"astronomy" in sa and "2611" in sa`. -/
def rsaaToken (sa : Str) : Bool :=
  isSubstr deptKeyword sa && isSubstr postcodeToken sa

/-- The `for j, sa in enumerate(...)` loop of `matching_author`: index of the
first stripped sub-affiliation passing `rsaaToken`, starting the count at `k`. -/
def find_matching (k : Nat) : List Str → Option Nat
  | [] => none
  | sa :: rest => if rsaaToken sa then some k else find_matching (k + 1) rest

/-- Source function `matching_author(author, aff)`.  Python returns
`(True, [j, author, aff])` or `(False, [])`; this is embedded as
`some (j, author, aff)` versus `none`. -/
def matching_author (author aff : Str) : Option (Nat × Str × Str) :=
  (find_matching 0 (strip_affiliations aff)).map (fun j => (j, author, aff))

/-- Source function `format_author(author, aff)`: a matched author is wrapped in `*`-emphasis
markers and upper-cased, a non-matched author is rendered verbatim. -/
def format_author (author aff : Str) : Str :=
  if (matching_author author aff).isSome then
    '*' :: (author.map Char.toUpper) ++ ['*']
  else
    author

/-- The fields of an `ads.Article` used by the script.  `page` is a list whose
first entry may be `None`, and the list itself may be `None`; `volume` and
`issue` may be `None`. -/
structure Article where
  id : Int
  author : List Str
  aff : List Str
  title : List Str
  bibcode : Str
  pub : Str
  volume : Option Str
  issue : Option Str
  page : Option (List (Option Str))
  pubdate : Str
deriving DecidableEq

/-- Python `"; ".join(entries)`-style separator join. -/
def joinSep (sep : Str) : List Str → Str
  | [] => []
  | [x] => x
  | x :: xs => x ++ sep ++ joinSep sep xs

/-- The `for j, (author, aff) in enumerate(...)` loop of `formatted_summary`'s
long-author-list branch, over the pairs after the first one (`j >= 1`), with
the mutable state `skip`, `total_skip` and the accumulated `authors` list made
explicit.  Returns the final entry list and `total_skip`. -/
def long_tail_loop : List (Str × Str) → Nat → Nat → List Str → List Str × Nat
  | [], skip, total, acc =>
    (if skip > 0 then acc ++ ["et al.".toList] else acc, total)
  | (author, aff) :: rest, skip, total, acc =>
    if (matching_author author aff).isSome then
      long_tail_loop rest 0 total
        ((if skip > 0 then acc ++ ["...".toList] else acc) ++ [format_author author aff])
    else
      long_tail_loop rest (skip + 1) (total + 1) acc

/-- The entry list and omitted count built by the long-author-list branch:
the first pair (`j < 1`) is always formatted and included, the rest go
through `long_tail_loop`. -/
def long_author_entries : List (Str × Str) → List Str × Nat
  | [] => ([], 0)
  | (author, aff) :: rest => long_tail_loop rest 0 0 [format_author author aff]

/-- The entry list built by the short-author-list branch: every
(author, affiliation) pair formatted, in order. -/
def short_author_entries (article : Article) : List Str :=
  (article.author.zip article.aff).map (fun p => format_author p.1 p.2)

/-- Field `formatted_authors` as computed by `formatted_summary`: the long branch
appends the parenthesised omitted count, the short branch just joins. -/
def formatted_authors (article : Article) (long_author_list : Nat) : Str :=
  if article.author.length > long_author_list then
    let (entries, total) := long_author_entries (article.author.zip article.aff)
    joinSep "; ".toList entries ++ " (".toList ++ Nat.toDigits 10 total ++
      " authors not shown)".toList
  else
    joinSep "; ".toList (short_author_entries article)

/-- Helper `formatted_page`: Python evaluates `article.page[0]` whenever
`article.page is not None`, so a present-but-empty page list raises an
`IndexError`; that crash is modelled as `none`. -/
def formatted_page : Option (List (Option Str)) → Option Str
  | none => some []
  | some [] => none
  | some (none :: _) => some []
  | some (some p0 :: _) => some (", ".toList ++ p0)

/-- The dictionary of formatted display fields returned by
`formatted_summary` (minus the raw `article` entry). -/
structure Kwds where
  formatted_authors : Str
  formatted_volume : Str
  formatted_issue : Str
  formatted_page : Str
  formatted_year : Str
  formatted_url : Str
deriving DecidableEq

/-- Source function `formatted_summary(article, long_author_list=50)`; `none`
models the `IndexError` raised on a present-but-empty page list. -/
def formatted_summary (article : Article) (long_author_list : Nat := 50) :
    Option Kwds :=
  match formatted_page article.page with
  | none => none
  | some fp =>
    some
      { formatted_authors := formatted_authors article long_author_list
        formatted_volume :=
          match article.volume with
          | none => "in press".toList
          | some v => v
        formatted_issue :=
          match article.issue with
          | none => []
          | some i => ", ".toList ++ i
        formatted_page := fp
        formatted_year := (pySplit '-' article.pubdate).headD []
        formatted_url := "https://ui.adsabs.harvard.edu/abs/".toList ++ article.bibcode }

/-- One row of the records table: `(id, updated, title, bibcode, pubdate)`. -/
structure RecordRow where
  id : Int
  updated : Str
  title : Str
  bibcode : Str
  pubdate : Str
deriving DecidableEq

/-- Source function `prepare_record(article)`: the row appended for a newly accepted article.
`datetime.now()` is passed in as `nowStr`; the `str(title.encode())` byte-repr
wrapping of the title snapshot is elided (no claim inspects it). -/
def prepare_record (nowStr : Str) (article : Article) : RecordRow :=
  { id := article.id
    updated := nowStr
    title := article.title.headD []
    bibcode := article.bibcode
    pubdate := article.pubdate }

/-- The per-article matched-author metadata `[i, j, author, aff]` collected by
the pipeline's `enumerate(map(matching_author, ...))` loop: author index `i`
plus `matching_author`'s meta. -/
abbrev MatchInfo : Type := Nat × Nat × Str × Str

/-- The `matching_authors` list built for one article by the filter loop. -/
def matching_authors (article : Article) : List MatchInfo :=
  (article.author.zip article.aff).enum.filterMap
    (fun p => (matching_author p.2.1 p.2.2).map (fun m => (p.1, m)))

/-- The module-level filter loop over the returned articles, with the mutable
`records` table and `new_articles` list made explicit accumulators: skip an
article whose id is already in the `id` column; skip an article with no
matching authors; otherwise append it to `new_articles` and add its row to
`records`. -/
def filter_articles (nowStr : Str) :
    List RecordRow → List (Article × List MatchInfo) → List Article →
      List RecordRow × List (Article × List MatchInfo)
  | records, new, [] => (records, new)
  | records, new, article :: rest =>
    if article.id ∈ records.map RecordRow.id then
      filter_articles nowStr records new rest
    else if matching_authors article = [] then
      filter_articles nowStr records new rest
    else
      filter_articles nowStr (records ++ [prepare_record nowStr article])
        (new ++ [(article, matching_authors article)]) rest

/-- The records table written back plus the digest decision: the updated table
is always saved, and when no new articles were accepted the run exits before
producing a digest (`none`); otherwise the accepted articles flow on to the
digest stage (`some`). -/
def pipeline_outputs (nowStr : Str) (records0 : List RecordRow)
    (articles : List Article) :
    List RecordRow × Option (List (Article × List MatchInfo)) :=
  let out := filter_articles nowStr records0 [] articles
  (out.1, if out.2.length = 0 then none else some out.2)

/-- The `(year, month)` resolution at the top of the pipeline: explicit
command-line arguments win; otherwise the previous calendar month of the
current date, with `month = 0` rolled over to December of the previous year. -/
def resolve_window (args : Option (Int × Int)) (nowYear nowMonth : Int) :
    Int × Int :=
  match args with
  | some (y, m) => (y, m)
  | none =>
    let year := nowYear
    let month := nowMonth - 1
    if 1 > month then (year - 1, 12) else (year, month)

/-- Column types of the records table: 32-bit integers and fixed-width byte
strings of a given width. -/
inductive ColType where
  | i4 : ColType
  | bytes : Nat → ColType
deriving DecidableEq

/-- The shape of an `astropy` table as far as `load_records` is concerned:
column names, column dtypes, rows. -/
structure RTable where
  names : List Str
  dtypes : List ColType
  rows : List RecordRow
deriving DecidableEq

/-- The empty table constructed by `load_records` when no record file exists:
columns `(id, updated, title, bibcode, pubdate)` with dtypes
`('i4', 'S26', 'S500', 'S100', 'S100')`. -/
def empty_records_table : RTable :=
  { names := ["id".toList, "updated".toList, "title".toList,
              "bibcode".toList, "pubdate".toList]
    dtypes := [ColType.i4, ColType.bytes 26, ColType.bytes 500,
               ColType.bytes 100, ColType.bytes 100]
    rows := [] }

/-- A present record file, abstracted by the outcomes of the two `Table.read`
attempts: `readLatin1`/`readUtf8` are `none` when that decode raises. -/
structure RecordFile where
  readLatin1 : Option RTable
  readUtf8 : Option RTable

/-- Source function `load_records(path)`: a missing file (`none`) yields the empty table with
the fixed schema; a present file is read as latin-1, falling back to utf-8 on
any failure; if the utf-8 read also fails the exception propagates, modelled
as `none`. -/
def load_records (file : Option RecordFile) : Option RTable :=
  match file with
  | none => some empty_records_table
  | some f =>
    match f.readLatin1 with
    | some t => some t
    | none => f.readUtf8

example : matching_author "A. Uthor".toList
    "Research School of Astronomy &amp; Astrophysics: ANU ACT 2611".toList =
    some (0, "A. Uthor".toList,
      "Research School of Astronomy &amp; Astrophysics: ANU ACT 2611".toList) := by
  decide

example : matching_author "B. Uthor".toList "Astronomy Dept; ANU, 2611".toList = none := by
  decide

example : matching_author "C. Uthor".toList [] = none := by decide

theorem find_matching_eq_none (l : List Str) (k : Nat) :
    find_matching k l = none ↔ ∀ sa ∈ l, rsaaToken sa = false := by
  induction l generalizing k with
  | nil => simp [find_matching]
  | cons sa rest ih =>
    by_cases h : rsaaToken sa
    · simp [find_matching, h]
    · simp only [Bool.not_eq_true] at h
      simp [find_matching, h, ih]

theorem find_matching_eq_some (l : List Str) (k j : Nat)
    (hfm : find_matching k l = some j) :
    k ≤ j ∧ (∃ sa, l.get? (j - k) = some sa ∧ rsaaToken sa = true) ∧
      ∀ i sa2, i < j - k → l.get? i = some sa2 → rsaaToken sa2 = false := by
  induction l generalizing k with
  | nil => simp [find_matching] at hfm
  | cons sa rest ih =>
    by_cases h : rsaaToken sa
    · simp only [find_matching, h, if_true, Option.some.injEq] at hfm
      subst hfm
      refine ⟨le_refl _, ⟨sa, by simp, h⟩, ?_⟩
      intro i sa2 hi
      omega
    · simp only [find_matching, h, if_false, Bool.false_eq_true] at hfm
      obtain ⟨hk, ⟨sa1, hget, htok⟩, hmin⟩ := ih (k + 1) hfm
      refine ⟨by omega, ⟨sa1, ?_, htok⟩, ?_⟩
      · have : j - k = (j - (k + 1)) + 1 := by omega
        rw [this]
        simpa using hget
      · intro i sa2 hi hget2
        match i with
        | 0 =>
          simp only [List.get?] at hget2
          cases hget2
          simpa using h
        | i' + 1 =>
          refine hmin i' sa2 (by omega) ?_
          simpa using hget2

/-- C1: an author matches exactly when some normalized (lower-cased,
comma/colon-stripped, `&amp;`-decoded, `;`-split) sub-affiliation contains
both the department keyword `"astronomy"` and the postal code `"2611"`; on a
match, the reported index is that of the first such sub-affiliation and the
author name and raw affiliation are passed through; a string lacking either
token in every sub-affiliation — in particular the empty string — yields no
match, and no error occurs (the function is total). -/
theorem matching_author_spec (author aff : Str) :
    ((matching_author author aff).isSome = true ↔
        ∃ sa ∈ strip_affiliations aff, rsaaToken sa = true)
    ∧ (∀ j a l, matching_author author aff = some (j, a, l) →
        a = author ∧ l = aff ∧
        (∃ sa, (strip_affiliations aff).get? j = some sa ∧ rsaaToken sa = true) ∧
        ∀ i sa2, i < j → (strip_affiliations aff).get? i = some sa2 →
          rsaaToken sa2 = false)
    ∧ matching_author author [] = none := by
  refine ⟨?_, ?_, rfl⟩
  · constructor
    · intro h
      match hfm : find_matching 0 (strip_affiliations aff) with
      | none => rw [matching_author, hfm] at h; simp at h
      | some j =>
        obtain ⟨_, ⟨sa, hget, htok⟩, _⟩ := find_matching_eq_some _ 0 j hfm
        exact ⟨sa, List.get?_mem hget, htok⟩
    · intro ⟨sa, hmem, htok⟩
      match hfm : find_matching 0 (strip_affiliations aff) with
      | some j => rw [matching_author, hfm]; rfl
      | none =>
        rw [find_matching_eq_none] at hfm
        rw [hfm sa hmem] at htok
        cases htok
  · intro j a l hma
    rw [matching_author] at hma
    match hfm : find_matching 0 (strip_affiliations aff) with
    | none => rw [hfm] at hma; cases hma
    | some j0 =>
      rw [hfm] at hma
      simp only [Option.map_some', Option.some.injEq, Prod.mk.injEq] at hma
      obtain ⟨hj, ha, hl⟩ := hma
      subst hj; subst ha; subst hl
      obtain ⟨_, hex, hmin⟩ := find_matching_eq_some _ 0 j0 hfm
      simp only [Nat.sub_zero] at hex hmin
      exact ⟨rfl, rfl, hex, hmin⟩

/-- A concrete affiliation whose second `;`-separated sub-affiliation names
the school (via the `&amp;` entity, mixed case and commas) and the postcode. -/
def wAff : Str :=
  "Dept of Physics; Research School of Astronomy &amp; Astrophysics, ACT 2611".toList

theorem matching_author_spec_witness :
    "A. Uthor".toList = "A. Uthor".toList ∧ wAff = wAff ∧
      (∃ sa, (strip_affiliations wAff).get? 1 = some sa ∧ rsaaToken sa = true) ∧
      ∀ i sa2, i < 1 → (strip_affiliations wAff).get? i = some sa2 →
        rsaaToken sa2 = false :=
  (matching_author_spec "A. Uthor".toList wAff).2.1 1 "A. Uthor".toList wAff
    (by decide)

/-- C6: for an article whose author count is at most the threshold (50 by
default; parallel author/affiliation lists), the formatted author string is
the `"; "`-join of exactly one entry per author, in order; the `j`-th entry
is the author name wrapped in `*`-emphasis markers and upper-cased when that
author matches the institution, and the verbatim name otherwise. -/
theorem short_formatted_authors_spec (article : Article)
    (hlen : article.author.length ≤ 50)
    (hpar : article.aff.length = article.author.length) :
    formatted_authors article 50 = joinSep "; ".toList (short_author_entries article)
    ∧ (short_author_entries article).length = article.author.length
    ∧ ∀ j a f, article.author.get? j = some a → article.aff.get? j = some f →
        (short_author_entries article).get? j =
          some (if (matching_author a f).isSome = true then
            '*' :: (a.map Char.toUpper) ++ ['*'] else a) := by
  refine ⟨?_, ?_, ?_⟩
  · rw [formatted_authors, if_neg (by omega)]
  · rw [short_author_entries, List.length_map, List.length_zip, hpar, Nat.min_self]
  · intro j a f ha hf
    have hz : (article.author.zip article.aff).get? j = some (a, f) :=
      (List.get?_zip_eq_some _ _ _ _).mpr ⟨ha, hf⟩
    simp only [short_author_entries, List.get?_map, hz, Option.map_some',
      format_author]

theorem short_formatted_authors_spec_witness :
    (let article : Article :=
      { id := 1
        author := ["A. Uthor".toList, "B. Uthor".toList]
        aff := ["Astronomy ACT 2611".toList, "Physics Dept".toList]
        title := ["T".toList]
        bibcode := "B".toList
        pub := "J".toList
        volume := none
        issue := none
        page := none
        pubdate := "2024-01-00".toList }
    formatted_authors article 50 = joinSep "; ".toList (short_author_entries article)
    ∧ (short_author_entries article).length = article.author.length
    ∧ ∀ j a f, article.author.get? j = some a → article.aff.get? j = some f →
        (short_author_entries article).get? j =
          some (if (matching_author a f).isSome = true then
            '*' :: (a.map Char.toUpper) ++ ['*'] else a)) :=
  short_formatted_authors_spec _ (by decide) (by decide)

/-- Does the pair (author, affiliation) match the institution? -/
def pairMatches (p : Str × Str) : Bool :=
  (matching_author p.1 p.2).isSome

mutual

/-- Modelled from the spec (as amended): rendering of the tail of a long
author list when no author is currently being skipped — a matching author is
formatted and included; a non-matching author opens a skipped run. -/
def spec_render : List (Str × Str) → List Str
  | [] => []
  | (author, aff) :: rest =>
    if (matching_author author aff).isSome then
      format_author author aff :: spec_render rest
    else
      spec_render_after_skip rest

/-- Modelled from the spec (as amended): rendering while inside a skipped run
of non-matching authors — the next matching author closes the run with
exactly one `"..."` marker before its own entry; a run that reaches the end
of the list is closed with `"et al."` instead (so `"et al."` appears exactly
when the list ends with a non-matching author). -/
def spec_render_after_skip : List (Str × Str) → List Str
  | [] => ["et al.".toList]
  | (author, aff) :: rest =>
    if (matching_author author aff).isSome then
      "...".toList :: format_author author aff :: spec_render rest
    else
      spec_render_after_skip rest

end

theorem long_tail_loop_eq_spec_render (rest : List (Str × Str)) :
    ∀ (skip total : Nat) (acc : List Str),
      long_tail_loop rest skip total acc =
        (acc ++ (if skip > 0 then spec_render_after_skip rest else spec_render rest),
         total + rest.countP (fun p => !pairMatches p)) := by
  induction rest with
  | nil =>
    intro skip total acc
    by_cases h : skip > 0 <;>
      simp [long_tail_loop, spec_render, spec_render_after_skip, h]
  | cons p rest ih =>
    intro skip total acc
    obtain ⟨author, aff⟩ := p
    match hma : matching_author author aff with
    | some v =>
      by_cases h : skip > 0 <;>
        simp [long_tail_loop, hma, h, ih, spec_render, spec_render_after_skip,
          List.countP_cons, pairMatches]
    | none =>
      by_cases h : skip > 0 <;>
        · simp [long_tail_loop, hma, h, ih, spec_render, spec_render_after_skip,
            List.countP_cons, pairMatches]
          omega

theorem countP_not_add_countP (l : List (Str × Str)) :
    l.countP (fun p => !pairMatches p) + l.countP pairMatches = l.length := by
  induction l with
  | nil => simp
  | cons p rest ih =>
    by_cases h : pairMatches p <;> simp [List.countP_cons, h] <;> omega

/-- C4 (amended): for an article whose author count exceeds the threshold
(50 by default), the formatted author string is the join of: the formatted
first author (matched or not), then the spec rendering of the remaining
pairs — each matching author included, exactly one `"..."` marker per
contiguous skipped run preceding an included matching author, and `"et al."`
appended exactly when the list ends with a run of skipped non-matching
authors (not unconditionally, as the claim states) — followed by a
parenthetical count of omitted authors equal to the number of non-matching
authors after the first, i.e. the total author count minus the number of
included authors. -/
theorem long_formatted_authors_spec (article : Article)
    (hlen : article.author.length > 50)
    (hpar : article.aff.length = article.author.length) :
    ∀ p0 tail, article.author.zip article.aff = p0 :: tail →
      formatted_authors article 50 =
        joinSep "; ".toList (format_author p0.1 p0.2 :: spec_render tail) ++
          " (".toList ++ Nat.toDigits 10 (tail.countP (fun p => !pairMatches p)) ++
          " authors not shown)".toList
      ∧ (long_author_entries (article.author.zip article.aff)).1 =
          format_author p0.1 p0.2 :: spec_render tail
      ∧ (long_author_entries (article.author.zip article.aff)).2 =
          tail.countP (fun p => !pairMatches p)
      ∧ tail.countP (fun p => !pairMatches p) =
          article.author.length - (1 + tail.countP pairMatches) := by
  intro p0 tail hzip
  obtain ⟨a0, f0⟩ := p0
  have hentries : long_author_entries (article.author.zip article.aff) =
      (format_author a0 f0 :: spec_render tail,
       tail.countP (fun p => !pairMatches p)) := by
    rw [hzip, long_author_entries, long_tail_loop_eq_spec_render]
    simp
  have hcount : tail.countP (fun p => !pairMatches p) =
      article.author.length - (1 + tail.countP pairMatches) := by
    have hlenzip : (article.author.zip article.aff).length = article.author.length := by
      rw [List.length_zip, hpar, Nat.min_self]
    rw [hzip] at hlenzip
    simp only [List.length_cons] at hlenzip
    have := countP_not_add_countP tail
    omega
  refine ⟨?_, by rw [hentries], by rw [hentries], hcount⟩
  rw [formatted_authors, if_pos (by omega)]
  rw [hentries]

/-- A 51-author article in which every author matches the institution: the
long-author-list branch then skips nobody, so no `"et al."` is ever appended
(and the omitted count is 0), refuting the claim's unconditional
`"et al."`. -/
def art51 : Article :=
  { id := 7
    author := List.replicate 51 "X. Uthor".toList
    aff := List.replicate 51 "Research School of Astronomy and Astrophysics ACT 2611".toList
    title := ["T".toList]
    bibcode := "B".toList
    pub := "J".toList
    volume := none
    issue := none
    page := none
    pubdate := "2024-01-00".toList }

theorem long_formatted_authors_cex :
    art51.author.length > 50 ∧
    isSubstr "et al.".toList (formatted_authors art51 50) = false := by
  decide

/-- A 60-author article matched exactly at indices 0, 5 and 12 (the spec's
own worked example), used to instantiate the amended long-list theorem. -/
def art60 : Article :=
  { id := 8
    author := List.replicate 60 "X. Uthor".toList
    aff := ["Astronomy ACT 2611".toList] ++ List.replicate 4 "Physics".toList ++
           ["Astronomy ACT 2611".toList] ++ List.replicate 6 "Physics".toList ++
           ["Astronomy ACT 2611".toList] ++ List.replicate 47 "Physics".toList
    title := ["T".toList]
    bibcode := "B".toList
    pub := "J".toList
    volume := none
    issue := none
    page := none
    pubdate := "2024-01-00".toList }

/-- The head pair of `art60`'s zipped author/affiliation list. -/
def wp0 : Str × Str := ("X. Uthor".toList, "Astronomy ACT 2611".toList)

/-- The tail pairs of `art60`'s zipped author/affiliation list. -/
def wtail : List (Str × Str) := (art60.author.zip art60.aff).tail

theorem long_formatted_authors_spec_witness :
    formatted_authors art60 50 =
      joinSep "; ".toList (format_author wp0.1 wp0.2 :: spec_render wtail) ++
        " (".toList ++ Nat.toDigits 10 (wtail.countP (fun p => !pairMatches p)) ++
        " authors not shown)".toList
    ∧ (long_author_entries (art60.author.zip art60.aff)).1 =
        format_author wp0.1 wp0.2 :: spec_render wtail
    ∧ (long_author_entries (art60.author.zip art60.aff)).2 =
        wtail.countP (fun p => !pairMatches p)
    ∧ wtail.countP (fun p => !pairMatches p) =
        art60.author.length - (1 + wtail.countP pairMatches) :=
  long_formatted_authors_spec art60 (by decide) (by decide) wp0 wtail (by decide)

/-- An article whose `page` attribute is a present but empty list:
`formatted_summary` evaluates `article.page[0]`, which raises `IndexError`
(modelled as `none`), so a malformed-but-present page list is not tolerated. -/
def artEmptyPage : Article :=
  { id := 9
    author := ["A. Uthor".toList]
    aff := ["Astronomy ACT 2611".toList]
    title := ["T".toList]
    bibcode := "2024Bib..1X".toList
    pub := "J".toList
    volume := none
    issue := none
    page := some []
    pubdate := "2024-01-00".toList }

theorem formatted_summary_cex : formatted_summary artEmptyPage = none := by
  decide

/-- C5 (amended): for every article whose `page` field is not a
present-but-empty list, `formatted_summary` returns without error, with the
sentinels the claim describes: volume `"in press"` when absent; issue empty
when absent and comma-prefixed otherwise; page empty when the list is absent
or its first entry is null, comma-prefixed otherwise; the year is the first
`-`-separated token of the publication date; the URL is the ADS prefix plus
the bibcode.  (A present page list that is empty makes the source raise an
`IndexError`, so the claim's unrestricted "returns without error" fails.) -/
theorem formatted_summary_fields (article : Article)
    (hp : article.page ≠ some []) :
    ∃ k, formatted_summary article = some k
      ∧ (article.volume = none → k.formatted_volume = "in press".toList)
      ∧ (∀ v, article.volume = some v → k.formatted_volume = v)
      ∧ (article.issue = none → k.formatted_issue = [])
      ∧ (∀ i, article.issue = some i → k.formatted_issue = ", ".toList ++ i)
      ∧ (article.page = none → k.formatted_page = [])
      ∧ (∀ rest, article.page = some (none :: rest) → k.formatted_page = [])
      ∧ (∀ p0 rest, article.page = some (some p0 :: rest) →
          k.formatted_page = ", ".toList ++ p0)
      ∧ k.formatted_year = (pySplit '-' article.pubdate).headD []
      ∧ k.formatted_url = "https://ui.adsabs.harvard.edu/abs/".toList ++
          article.bibcode := by
  have hfp : ∃ fp, formatted_page article.page = some fp := by
    match hpg : article.page with
    | none => exact ⟨_, rfl⟩
    | some [] => exact absurd hpg hp
    | some (none :: rest) => exact ⟨_, rfl⟩
    | some (some p0 :: rest) => exact ⟨_, rfl⟩
  obtain ⟨fp, hfp⟩ := hfp
  refine ⟨{ formatted_authors := formatted_authors article 50
            formatted_volume :=
              match article.volume with
              | none => "in press".toList
              | some v => v
            formatted_issue :=
              match article.issue with
              | none => []
              | some i => ", ".toList ++ i
            formatted_page := fp
            formatted_year := (pySplit '-' article.pubdate).headD []
            formatted_url := "https://ui.adsabs.harvard.edu/abs/".toList ++
              article.bibcode },
        ?_, ?_, ?_, ?_, ?_, ?_, ?_, ?_, rfl, rfl⟩
  · rw [formatted_summary, hfp]
  · intro hv; simp only [hv]
  · intro v hv; simp only [hv]
  · intro hi; simp only [hi]
  · intro i hi; simp only [hi]
  · intro hpg
    rw [hpg] at hfp
    simp only [formatted_page, Option.some.injEq] at hfp
    simp [← hfp]
  · intro rest hpg
    rw [hpg] at hfp
    simp only [formatted_page, Option.some.injEq] at hfp
    simp [← hfp]
  · intro p0 rest hpg
    rw [hpg] at hfp
    simp only [formatted_page, Option.some.injEq] at hfp
    simp [← hfp]

/-- An article with every optional display field absent. -/
def artMissing : Article :=
  { id := 10
    author := ["A. Uthor".toList]
    aff := ["Astronomy ACT 2611".toList]
    title := ["T".toList]
    bibcode := "2024Bib..2X".toList
    pub := "J".toList
    volume := none
    issue := none
    page := none
    pubdate := "2024-01-00".toList }

theorem formatted_summary_fields_witness :
    ∃ k, formatted_summary artMissing = some k
      ∧ (artMissing.volume = none → k.formatted_volume = "in press".toList)
      ∧ (∀ v, artMissing.volume = some v → k.formatted_volume = v)
      ∧ (artMissing.issue = none → k.formatted_issue = [])
      ∧ (∀ i, artMissing.issue = some i → k.formatted_issue = ", ".toList ++ i)
      ∧ (artMissing.page = none → k.formatted_page = [])
      ∧ (∀ rest, artMissing.page = some (none :: rest) → k.formatted_page = [])
      ∧ (∀ p0 rest, artMissing.page = some (some p0 :: rest) →
          k.formatted_page = ", ".toList ++ p0)
      ∧ k.formatted_year = (pySplit '-' artMissing.pubdate).headD []
      ∧ k.formatted_url = "https://ui.adsabs.harvard.edu/abs/".toList ++
          artMissing.bibcode :=
  formatted_summary_fields artMissing (by decide)

/-- C7: loading the record store on a missing file returns the empty table
with the fixed five-column schema (32-bit integer id, fixed-width byte-string
remaining columns) and is not an error; on a present file the latin-1 read is
tried first and wins when it succeeds; on its failure the utf-8 read is the
result when it succeeds; when both fail the error propagates (fatal). -/
theorem load_records_spec :
    (load_records none = some empty_records_table
      ∧ empty_records_table.names =
          ["id".toList, "updated".toList, "title".toList,
           "bibcode".toList, "pubdate".toList]
      ∧ empty_records_table.dtypes =
          [ColType.i4, ColType.bytes 26, ColType.bytes 500,
           ColType.bytes 100, ColType.bytes 100]
      ∧ empty_records_table.rows = [])
    ∧ (∀ f t, f.readLatin1 = some t → load_records (some f) = some t)
    ∧ (∀ f t, f.readLatin1 = none → f.readUtf8 = some t →
        load_records (some f) = some t)
    ∧ (∀ f, f.readLatin1 = none → f.readUtf8 = none →
        load_records (some f) = none) := by
  refine ⟨⟨rfl, rfl, rfl, rfl⟩, ?_, ?_, ?_⟩
  · intro f t h
    simp [load_records, h]
  · intro f t h1 h2
    simp [load_records, h1, h2]
  · intro f h1 h2
    simp [load_records, h1, h2]

theorem load_records_spec_witness :
    load_records (some { readLatin1 := none,
                         readUtf8 := some empty_records_table }) =
      some empty_records_table :=
  load_records_spec.2.2.1 _ empty_records_table rfl rfl

/-- C8: with no explicit (year, month) arguments, the resolved query window
is the previous calendar month: December of the previous year when the
current month is January, the preceding month of the same year otherwise. -/
theorem resolve_window_default (nowYear nowMonth : Int)
    (h1 : 1 ≤ nowMonth) (h2 : nowMonth ≤ 12) :
    resolve_window none nowYear nowMonth =
      (if nowMonth = 1 then (nowYear - 1, 12) else (nowYear, nowMonth - 1)) := by
  simp only [resolve_window]
  by_cases h : nowMonth = 1
  · subst h
    norm_num
  · rw [if_neg (by omega), if_neg h]

theorem resolve_window_default_witness :
    resolve_window none 2025 1 =
      (if (1 : Int) = 1 then ((2025 : Int) - 1, 12) else (2025, 1 - 1)) :=
  resolve_window_default 2025 1 (by decide) (by decide)

theorem filter_articles_extends_records (nowStr : Str) (as : List Article) :
    ∀ records new, ∃ ext,
      (filter_articles nowStr records new as).1 = records ++ ext := by
  induction as with
  | nil =>
    intro records new
    exact ⟨[], by simp [filter_articles]⟩
  | cons a rest ih =>
    intro records new
    by_cases hmem : a.id ∈ records.map RecordRow.id
    · simpa [filter_articles, hmem] using ih records new
    · by_cases hma : matching_authors a = []
      · simpa [filter_articles, hmem, hma] using ih records new
      · obtain ⟨ext, hext⟩ :=
          ih (records ++ [prepare_record nowStr a]) (new ++ [(a, matching_authors a)])
        refine ⟨[prepare_record nowStr a] ++ ext, ?_⟩
        simp only [filter_articles, hmem, if_false, hma, if_true, hext,
          List.append_assoc]

theorem filter_articles_id_mono (nowStr : Str) (as : List Article)
    (records : List RecordRow) (new : List (Article × List MatchInfo)) (x : Int)
    (hx : x ∈ records.map RecordRow.id) :
    x ∈ (filter_articles nowStr records new as).1.map RecordRow.id := by
  obtain ⟨ext, hext⟩ := filter_articles_extends_records nowStr as records new
  rw [hext, List.map_append]
  exact List.mem_append_left _ hx

theorem filter_articles_covered (nowStr : Str) (as : List Article) :
    ∀ records new, ∀ a ∈ as,
      matching_authors a = [] ∨
        a.id ∈ (filter_articles nowStr records new as).1.map RecordRow.id := by
  induction as with
  | nil =>
    intro records new a ha
    cases ha
  | cons b rest ih =>
    intro records new a ha
    by_cases hmem : b.id ∈ records.map RecordRow.id
    · rcases List.mem_cons.mp ha with ha | ha
      · subst ha
        right
        simp only [filter_articles, hmem, if_true]
        exact filter_articles_id_mono nowStr rest records new a.id hmem
      · simpa [filter_articles, hmem] using ih records new a ha
    · by_cases hma : matching_authors b = []
      · rcases List.mem_cons.mp ha with ha | ha
        · subst ha
          exact Or.inl hma
        · simpa [filter_articles, hmem, hma] using ih records new a ha
      · rcases List.mem_cons.mp ha with ha | ha
        · subst ha
          right
          simp only [filter_articles, hmem, if_false, hma, if_true]
          refine filter_articles_id_mono nowStr rest _ _ a.id ?_
          simp [prepare_record]
        · simpa [filter_articles, hmem, hma] using
            ih (records ++ [prepare_record nowStr b])
              (new ++ [(b, matching_authors b)]) a ha

theorem filter_articles_stuck (nowStr : Str) (as : List Article) :
    ∀ records new,
      (∀ a ∈ as, a.id ∈ records.map RecordRow.id ∨ matching_authors a = []) →
      filter_articles nowStr records new as = (records, new) := by
  induction as with
  | nil =>
    intro records new _
    rfl
  | cons b rest ih =>
    intro records new h
    by_cases hmem : b.id ∈ records.map RecordRow.id
    · simp only [filter_articles, hmem, if_true]
      exact ih records new (fun a ha => h a (List.mem_cons_of_mem _ ha))
    · have hma : matching_authors b = [] := by
        rcases h b (List.mem_cons_self _ _) with hmem2 | hma
        · exact absurd hmem2 hmem
        · exact hma
      simp only [filter_articles, hmem, if_false, hma, if_true]
      exact ih records new (fun a ha => h a (List.mem_cons_of_mem _ ha))

/-- C2: running the filter loop a second time over the same article stream,
starting from the record table produced by the first run, accepts zero new
articles and leaves the table unchanged: every article was either already
recorded before the first run, had its id appended by the first run, or has
no matching author — and in all three cases the second run skips it.  (The
timestamp strings of the two runs may differ; neither affects filtering.) -/
theorem filter_articles_idempotent (n1 n2 : Str) (records0 : List RecordRow)
    (as : List Article) :
    filter_articles n2 (filter_articles n1 records0 [] as).1 [] as =
      ((filter_articles n1 records0 [] as).1, []) := by
  apply filter_articles_stuck
  intro a ha
  rcases filter_articles_covered n1 as records0 [] a ha with h | h
  · exact Or.inr h
  · exact Or.inl h

theorem filter_articles_nodup (nowStr : Str) (as : List Article) :
    ∀ records new,
      (records.map RecordRow.id).Nodup →
      (∀ x ∈ new, x.1.id ∈ records.map RecordRow.id) →
      (new.map (fun x => x.1.id)).Nodup →
      ((filter_articles nowStr records new as).1.map RecordRow.id).Nodup ∧
        ((filter_articles nowStr records new as).2.map (fun x => x.1.id)).Nodup := by
  induction as with
  | nil =>
    intro records new h1 _ h3
    exact ⟨h1, h3⟩
  | cons a rest ih =>
    intro records new h1 h2 h3
    by_cases hmem : a.id ∈ records.map RecordRow.id
    · simp only [filter_articles, hmem, if_true]
      exact ih records new h1 h2 h3
    · by_cases hma : matching_authors a = []
      · simp only [filter_articles, hmem, if_false, hma, if_true]
        exact ih records new h1 h2 h3
      · simp only [filter_articles, hmem, if_false, hma, if_true]
        apply ih
        · simp only [List.map_append, List.map_cons, List.map_nil, prepare_record]
          rw [List.nodup_append]
          refine ⟨h1, List.nodup_singleton _, ?_⟩
          intro x hx
          simp only [List.mem_singleton]
          intro heq
          subst heq
          exact hmem hx
        · intro x hx
          rcases List.mem_append.mp hx with hx | hx
          · simp only [List.map_append]
            exact List.mem_append_left _ (h2 x hx)
          · simp only [List.mem_singleton] at hx
            subst hx
            simp [prepare_record]
        · simp only [List.map_append, List.map_cons, List.map_nil]
          rw [List.nodup_append]
          refine ⟨h3, List.nodup_singleton _, ?_⟩
          intro x hx
          simp only [List.mem_singleton]
          intro heq
          subst heq
          obtain ⟨y, hy, hyid⟩ := List.mem_map.mp hx
          exact hmem (hyid ▸ h2 y hy)

/-- C10: within a single run each numeric article id is accepted and
recorded at most once, even when the query stream repeats an id: an accepted
article's row is appended to the in-memory table before later stream
elements are checked, so a later duplicate fails the membership test; the
ids of the accepted articles are pairwise distinct unconditionally, and
whenever the loaded table's id column was duplicate-free so is the saved
one. -/
theorem filter_articles_distinct_ids (nowStr : Str) (records : List RecordRow)
    (as : List Article) (h : (records.map RecordRow.id).Nodup) :
    ((filter_articles nowStr records [] as).1.map RecordRow.id).Nodup ∧
      ((filter_articles nowStr records [] as).2.map (fun x => x.1.id)).Nodup :=
  filter_articles_nodup nowStr as records [] h (by simp) (by simp)

theorem filter_articles_distinct_ids_witness :
    ((filter_articles [] [] [] [artMissing, artMissing]).1.map RecordRow.id).Nodup ∧
      ((filter_articles [] [] [] [artMissing, artMissing]).2.map
        (fun x => x.1.id)).Nodup :=
  filter_articles_distinct_ids [] [] [artMissing, artMissing] (by decide)

/-- C9: the updated record table is handed to the write step unchanged on
every run, whether or not any article was accepted; and the run produces no
digest exactly when zero articles were accepted (it exits right after the
records are saved), while an accepted batch flows on to the digest stage
unchanged. -/
theorem pipeline_outputs_spec (nowStr : Str) (records0 : List RecordRow)
    (articles : List Article) :
    (pipeline_outputs nowStr records0 articles).1 =
      (filter_articles nowStr records0 [] articles).1
    ∧ ((pipeline_outputs nowStr records0 articles).2 = none ↔
        (filter_articles nowStr records0 [] articles).2 = [])
    ∧ (∀ l, (pipeline_outputs nowStr records0 articles).2 = some l →
        l = (filter_articles nowStr records0 [] articles).2) := by
  refine ⟨rfl, ?_, ?_⟩
  · simp only [pipeline_outputs]
    by_cases h : (filter_articles nowStr records0 [] articles).2.length = 0
    · simp [h, List.length_eq_zero.mp h]
    · simp only [h, if_false]
      constructor
      · intro hc
        cases hc
      · intro hc
        rw [hc] at h
        simp at h
  · intro l hl
    simp only [pipeline_outputs] at hl
    by_cases h : (filter_articles nowStr records0 [] articles).2.length = 0
    · rw [if_pos h] at hl
      cases hl
    · rw [if_neg h] at hl
      exact (Option.some.injEq _ _ ▸ hl).symm

theorem pipeline_outputs_spec_witness :
    (pipeline_outputs [] [] []).1 = (filter_articles [] [] [] []).1
    ∧ ((pipeline_outputs [] [] []).2 = none ↔ (filter_articles [] [] [] []).2 = [])
    ∧ (∀ l, (pipeline_outputs [] [] []).2 = some l →
        l = (filter_articles [] [] [] []).2) :=
  pipeline_outputs_spec [] [] []

/-- The `author_index` list built by the pipeline before sorting: for each
accepted article, `ma[0][0]` — the author-list index of its first matching
author — or the defensive sentinel `1000` for an empty matched list. -/
def author_index (new_articles : List (Article × List MatchInfo)) : List Nat :=
  new_articles.map (fun x => match x.2 with | [] => 1000 | m :: _ => m.1)

/-- The executive-summary loop `enumerate(new_articles, start=1)`: each
article of the (already sorted) accepted list paired with its 1-based rank
and its formatted summary. -/
def executive_summary (sorted : List (Article × List MatchInfo)) :
    List (Nat × Option Kwds) :=
  sorted.enum.map (fun p => (p.1 + 1, formatted_summary p.2.1))

theorem executive_summary_ranks (sorted : List (Article × List MatchInfo)) :
    (executive_summary sorted).map Prod.fst =
      (List.range sorted.length).map (fun i => i + 1) := by
  simp only [executive_summary, List.enum_eq_zip_range, List.map_map]
  have h1 : ((List.range sorted.length).zip sorted).map
      (Prod.fst ∘ fun p => (p.1 + 1, formatted_summary p.2.1)) =
      ((List.range sorted.length).zip sorted).map ((fun i => i + 1) ∘ Prod.fst) := rfl
  rw [h1, ← List.map_map, List.map_fst_zip _ _ (le_of_eq (List.length_range _))]

/-- Every article accepted by the filter loop carries its own non-empty
matched-author list: the `1000` sentinel branch of `author_index` is
unreachable for pipeline-produced lists (the spec calls it defensive dead
code). -/
theorem filter_articles_accepted_matched (nowStr : Str) (as : List Article) :
    ∀ records new,
      (∀ x ∈ new, x.2 = matching_authors x.1 ∧ x.2 ≠ []) →
      ∀ x ∈ (filter_articles nowStr records new as).2,
        x.2 = matching_authors x.1 ∧ x.2 ≠ [] := by
  induction as with
  | nil =>
    intro records new h
    exact h
  | cons a rest ih =>
    intro records new h
    by_cases hmem : a.id ∈ records.map RecordRow.id
    · simp only [filter_articles, hmem, if_true]
      exact ih records new h
    · by_cases hma : matching_authors a = []
      · simp only [filter_articles, hmem, if_false, hma, if_true]
        exact ih records new h
      · simp only [filter_articles, hmem, if_false, hma, if_true]
        apply ih
        intro x hx
        rcases List.mem_append.mp hx with hx | hx
        · exact h x hx
        · simp only [List.mem_singleton] at hx
          subst hx
          exact ⟨rfl, hma⟩

/-- An article fixture whose single matching author sits at 0-based index
`k` of an author list of length `n`. -/
def mkAccepted (idnum : Int) (n k : Nat) : Article :=
  { id := idnum
    author := List.replicate n "X. Uthor".toList
    aff := List.replicate k "Physics".toList ++ ["Astronomy ACT 2611".toList] ++
           List.replicate (n - k - 1) "Physics".toList
    title := ["T".toList]
    bibcode := "B".toList
    pub := "J".toList
    volume := none
    issue := none
    page := none
    pubdate := "2024-01-00".toList }

/-- Accepted article with first matched-author index 3. -/
def acceptedIdx3 : Article × List MatchInfo :=
  (mkAccepted 3 4 3, matching_authors (mkAccepted 3 4 3))

/-- Accepted article with first matched-author index 0. -/
def acceptedIdx0 : Article × List MatchInfo :=
  (mkAccepted 4 2 0, matching_authors (mkAccepted 4 2 0))

/-- Accepted article with first matched-author index 7. -/
def acceptedIdx7 : Article × List MatchInfo :=
  (mkAccepted 5 8 7, matching_authors (mkAccepted 5 8 7))

/-- Boolean test that a list of naturals is ascending (weakly sorted). -/
def ascendingNat : List Nat → Bool
  | [] => true
  | [_] => true
  | a :: b :: rest => if a ≤ b then ascendingNat (b :: rest) else false

/-- The tie-free part of the digest-ordering claim, on the spec's worked
example: for accepted articles whose first matched-author indices are 3, 0
and 7, of the six possible orderings of the accepted list, exactly one has
ascending `author_index` — the (index 0, index 3, index 7) order — so any
correct argsort of `author_index` (the keys being distinct here) reorders
the list that way, and the digest loop then assigns ranks 1, 2, 3.  (The
tie-breaking part of the ordering claim is not settled by this:
`np.argsort`'s default quicksort gives no guarantee on equal keys.) -/
theorem digest_order_example :
    (∀ m ∈ [[acceptedIdx3, acceptedIdx0, acceptedIdx7],
            [acceptedIdx3, acceptedIdx7, acceptedIdx0],
            [acceptedIdx0, acceptedIdx3, acceptedIdx7],
            [acceptedIdx0, acceptedIdx7, acceptedIdx3],
            [acceptedIdx7, acceptedIdx3, acceptedIdx0],
            [acceptedIdx7, acceptedIdx0, acceptedIdx3]],
      (ascendingNat (author_index m) = true ↔
        m = [acceptedIdx0, acceptedIdx3, acceptedIdx7]))
    ∧ author_index [acceptedIdx0, acceptedIdx3, acceptedIdx7] = [0, 3, 7]
    ∧ (executive_summary [acceptedIdx0, acceptedIdx3, acceptedIdx7]).map
        Prod.fst = [1, 2, 3] := by
  decide

end RSAA
